import Mathlib

/-!
Verification of the audio playback engine in `exp/textinput/textinput_js.go`
(the `readerdriver` part: `context`, `playerImpl` and their methods).

Modelling choices:
* Bytes are `Nat` values in `[0, 256)`; PCM float samples are modelled as `ℚ`.
  Every arithmetic operation performed by the sample converter (subtraction of
  a power of two, division by a power of two) is exact in `float32` for the
  byte/int16 inputs involved, so `ℚ` is a faithful carrier for those values.
* The `io.Reader` source is modelled as a list of read results: each `Read`
  call consumes one element and yields either a chunk of bytes (`ok`), a final
  chunk together with `io.EOF` (`eof`), or a non-EOF error (`fail`, whose
  bytes Go's caller discards because it returns before appending).  A reader
  whose list is exhausted behaves like a reader at end of stream, returning
  `(0, io.EOF)`.
* Concurrency is modelled at the granularity of whole operations: a step
  relation whose steps are the public control calls, one iteration of the
  background fill loop (taken only when `wait` would return), and one mixing
  callback (`addBuffer`).
-/

/-- A single result of calling `Read` on the player's source. -/
inductive ReadRes where
  | ok (chunk : List Nat)
  | eof (chunk : List Nat)
  | fail (e : Nat)
deriving DecidableEq, Repr

/-- Number of bytes a read result delivers to the caller.  Bytes that come
with a non-EOF error are discarded by the player, hence count 0. -/
def ReadRes.chunkLen : ReadRes → Nat
  | .ok c => c.length
  | .eof c => c.length
  | .fail _ => 0

/-- All read results in a source deliver at most `k` bytes, mirroring that a
Go `Read(buf)` returns at most `len(buf)` bytes. -/
def chunksLE (k : Nat) (src : List ReadRes) : Prop :=
  ∀ r ∈ src, r.chunkLen ≤ k

instance (k : Nat) (src : List ReadRes) : Decidable (chunksLE k src) :=
  inferInstanceAs (Decidable (∀ r ∈ src, r.chunkLen ≤ k))

/-- Total number of bytes the source can still deliver before the player
stops reading it (a `fail` aborts reading, an `eof` ends it). -/
def srcAvail : List ReadRes → Nat
  | [] => 0
  | .ok c :: rest => c.length + srcAvail rest
  | .eof c :: _ => c.length
  | .fail _ :: _ => 0

/-- Whether a read result is a non-EOF read error. -/
def ReadRes.isFail : ReadRes → Bool
  | .fail _ => true
  | _ => false

/-- The source contains no read error. -/
def noFail (src : List ReadRes) : Prop :=
  ∀ r ∈ src, r.isFail = false

instance (src : List ReadRes) : Decidable (noFail src) :=
  inferInstanceAs (Decidable (∀ r ∈ src, r.isFail = false))

/-- Output context configuration: `sampleRate`, `channelNum` and
`bitDepthInBytes` are the fields of Go's `context` struct.

`maxBufferSize` : Modelled from the spec: the method `context.maxBufferSize()`
is called by `playImpl` and `shouldWait` but its body is not part of the
analysed source; the spec fixes it only as a per-context derived constant
("implementation-defined but must stay constant per context").  It is
therefore kept abstract as a field. -/
structure Context where
  sampleRate : Nat
  channelNum : Nat
  bitDepthInBytes : Nat
  maxBufferSize : Nat
deriving DecidableEq, Repr

/-- Go's `playerState` enumeration. -/
inductive PlayerState where
  | paused
  | playing
  | closed
deriving DecidableEq, Repr

/-- Go's `playerImpl` struct: the remaining source, playback state, pending
byte buffer, volume, recorded error and the `hasLoop` flag.  The context
registry (`addPlayer` / `removePlayer`) holds no player-visible state and is
not modelled. -/
structure Player where
  src : List ReadRes
  state : PlayerState
  buf : List Nat
  volume : ℚ
  err : Option Nat
  hasLoop : Bool
deriving DecidableEq, Repr

/-- `context.NewPlayer`: fresh player over a source, volume 1, paused. -/
def initPlayer (src : List ReadRes) : Player :=
  { src := src, state := .paused, buf := [], volume := 1, err := none,
    hasLoop := false }

/-- `playerImpl.closeImpl`: if already closed return `nil`; otherwise close,
release the buffer and return the recorded error. -/
def closeImpl (p : Player) : Player × Option Nat :=
  if p.state = .closed then (p, none)
  else ({ p with state := .closed, buf := [] }, p.err)

/-- `playerImpl.setErrorImpl`: record the error, then `closeImpl`. -/
def setErrorImpl (e : Nat) (p : Player) : Player :=
  (closeImpl { p with err := some e }).1

/-- `playerImpl.pauseImpl`: only effective from `playerPlay`. -/
def pauseImpl (p : Player) : Player :=
  if p.state = .playing then { p with state := .paused } else p

/-- `playerImpl.resetImpl`: no-op when closed, otherwise force `playerPaused`
and truncate the buffer to length 0. -/
def resetImpl (p : Player) : Player :=
  if p.state = .closed then p
  else { p with state := .paused, buf := [] }

/-- The read loop inside `playerImpl.playImpl`: while `len(p.buf)` is below
`maxBufferSize`, read a chunk and append it; stop on `io.EOF`; on a non-EOF
error return it (the caller then records it).  Returns the recorded error (if
any), the new buffer and the remaining source. -/
def fillLoop (M : Nat) : List Nat → List ReadRes → Option Nat × List Nat × List ReadRes
  | buf, [] => (none, buf, [])
  | buf, r :: rest =>
    if buf.length < M then
      match r with
      | .fail e => (some e, buf, rest)
      | .eof c => (none, buf ++ c, rest)
      | .ok c => fillLoop M (buf ++ c) rest
    else (none, buf, r :: rest)

/-- `playerImpl.playImpl`: no-op when an error is recorded or the player is
not paused; otherwise synchronously fill the buffer up to `maxBufferSize`
(or EOF), record a read error via `setErrorImpl` if one occurs, else become
`playerPlay` and ensure the background loop is running. -/
def playImpl (ctx : Context) (p : Player) : Player :=
  if p.err ≠ none then p
  else if p.state ≠ .paused then p
  else
    match fillLoop ctx.maxBufferSize p.buf p.src with
    | (some e, buf2, src2) => setErrorImpl e { p with buf := buf2, src := src2 }
    | (none, buf2, src2) =>
        { p with buf := buf2, src := src2, state := .playing, hasLoop := true }

/-- `playerImpl.shouldWait`: paused waits; playing waits while the buffer
holds at least `maxBufferSize` bytes; closed does not wait. -/
def shouldWait (ctx : Context) (p : Player) : Bool :=
  match p.state with
  | .paused => true
  | .playing => decide (ctx.maxBufferSize ≤ p.buf.length)
  | .closed => false

/-- One iteration of `playerImpl.loop`, taken after `wait()` has returned:
if the player is not playing the loop exits (no change); otherwise read one
chunk (at most 4096 bytes in the Go code), record a non-EOF error, append the
chunk, and on EOF with an empty buffer trigger `resetImpl`. -/
def loopIter (p : Player) : Player :=
  if p.state ≠ .playing then p
  else
    match p.src with
    | [] => if p.buf.length = 0 then resetImpl p else p
    | .fail e :: rest => setErrorImpl e { p with src := rest }
    | .ok c :: rest => { p with src := rest, buf := p.buf ++ c }
    | .eof c :: rest =>
        let q := { p with src := rest, buf := p.buf ++ c }
        if q.buf.length = 0 then resetImpl q else q

/-- `playerImpl.SetVolume`. -/
def setVolume (v : ℚ) (p : Player) : Player := { p with volume := v }

/-- `playerImpl.UnplayedBufferSize`: the length of the pending byte buffer. -/
def unplayedBufferSize (p : Player) : Nat := p.buf.length

/-- Wrap-around 16-bit interpretation: Go's
`int16(p.buf[2*i]) | (int16(p.buf[2*i+1]) << 8)`. -/
def toInt16 (n : Nat) : Int :=
  if n % 65536 < 32768 then ((n % 65536 : Nat) : Int)
  else ((n % 65536 : Nat) : Int) - 65536

/-- The 1-byte branch of the converter in `addBuffer`:
`float32(v8-(1<<7)) / (1 << 7)` where `v8` is a Go `byte`, so the
subtraction wraps modulo 256. -/
def convert1 (b : Nat) : ℚ := (((b + 128) % 256 : Nat) : ℚ) / 128

/-- The 2-byte branch of the converter in `addBuffer`:
little-endian signed 16-bit divided by `1 << 15`. -/
def convert2 (lo hi : Nat) : ℚ := (toInt16 (lo + 256 * hi) : ℚ) / 32768

/-- The sample value `v` computed by `addBuffer` for sample index `i`
(0 for a bit depth other than 1 or 2, as in the Go `switch`). -/
def sampleAt (bd : Nat) (buf : List Nat) (i : Nat) : ℚ :=
  match bd with
  | 1 => convert1 (buf.getD i 0)
  | 2 => convert2 (buf.getD (2 * i) 0) (buf.getD (2 * i + 1) 0)
  | _ => 0

/-- The `for i := 0; i < n; i++ { buf[i] += v * volume }` loop of
`addBuffer`, expressed as a walk over the destination list: position `i`
receives `sample i * vol` when `i < n` and is left unchanged otherwise. -/
def mixAdd (vol : ℚ) (sample : Nat → ℚ) : Nat → Nat → List ℚ → List ℚ
  | _, _, [] => []
  | i, n, x :: xs =>
      (if i < n then x + sample i * vol else x) :: mixAdd vol sample (i + 1) n xs

/-- `playerImpl.addBuffer`: the mixing contribution.  Returns the player
after consumption, the updated destination buffer, and the number of samples
consumed. -/
def addBuffer (ctx : Context) (p : Player) (dst : List ℚ) :
    Player × List ℚ × Nat :=
  if p.state ≠ .playing then (p, dst, 0)
  else
    let bd := ctx.bitDepthInBytes
    let n := min (p.buf.length / bd) dst.length
    let dst2 := mixAdd p.volume (sampleAt bd p.buf) 0 n dst
    ({ p with buf := p.buf.drop (n * bd) }, dst2, n)

/-- Interleaving of the player's operations: public control calls from any
thread, one fill-loop iteration (only when `wait` would return, i.e.
`shouldWait` is false), and one mixing callback.  Read chunk sizes are
bounded by the largest read buffer either reader uses (`maxBufferSize` in
`playImpl`, 4096 in `loop`). -/
inductive Step (ctx : Context) : Player → Player → Prop
  | playS (p : Player) (h : chunksLE (max ctx.maxBufferSize 4096) p.src) :
      Step ctx p (playImpl ctx p)
  | pauseS (p : Player) : Step ctx p (pauseImpl p)
  | resetS (p : Player) : Step ctx p (resetImpl p)
  | closeS (p : Player) : Step ctx p (closeImpl p).1
  | volS (p : Player) (v : ℚ) : Step ctx p (setVolume v p)
  | loopS (p : Player) (hw : shouldWait ctx p = false)
      (h : chunksLE (max ctx.maxBufferSize 4096) p.src) :
      Step ctx p (loopIter p)
  | mixS (p : Player) (dst : List ℚ) : Step ctx p (addBuffer ctx p dst).1

/-- States reachable from a freshly created player over source `src`. -/
def Reachable (ctx : Context) (src : List ReadRes) (p : Player) : Prop :=
  Relation.ReflTransGen (Step ctx) (initPlayer src) p

/-! ### Lemmas about the synchronous fill loop -/

theorem fillLoop_stop {M : Nat} {buf : List Nat} {src : List ReadRes}
    (h : ¬ buf.length < M) : fillLoop M buf src = (none, buf, src) := by
  cases src <;> simp [fillLoop, h]

theorem fillLoop_nil {M : Nat} {buf : List Nat} :
    fillLoop M buf [] = (none, buf, []) := by
  simp [fillLoop]

theorem fillLoop_fail {M : Nat} {buf : List Nat} {e : Nat} {rest : List ReadRes}
    (h : buf.length < M) :
    fillLoop M buf (ReadRes.fail e :: rest) = (some e, buf, rest) := by
  simp [fillLoop, h]

theorem fillLoop_eof {M : Nat} {buf : List Nat} {c : List Nat} {rest : List ReadRes}
    (h : buf.length < M) :
    fillLoop M buf (ReadRes.eof c :: rest) = (none, buf ++ c, rest) := by
  simp [fillLoop, h]

theorem fillLoop_ok {M : Nat} {buf : List Nat} {c : List Nat} {rest : List ReadRes}
    (h : buf.length < M) :
    fillLoop M buf (ReadRes.ok c :: rest) = fillLoop M (buf ++ c) rest := by
  simp [fillLoop, h]

theorem noFail_cons {r : ReadRes} {rest : List ReadRes} (h : noFail (r :: rest)) :
    r.isFail = false ∧ noFail rest := by
  constructor
  · exact h r (by simp)
  · intro x hx
    exact h x (by simp [hx])

theorem fillLoop_err_none {M : Nat} (src : List ReadRes) (buf : List Nat)
    (h : noFail src) : (fillLoop M buf src).1 = none := by
  induction src generalizing buf with
  | nil =>
    by_cases hb : buf.length < M
    · rw [fillLoop_nil]
    · rw [fillLoop_stop hb]
  | cons r rest ih =>
    by_cases hb : buf.length < M
    · match r with
      | .fail e => exact absurd (noFail_cons h).1 (by simp [ReadRes.isFail])
      | .eof c => rw [fillLoop_eof hb]
      | .ok c =>
        rw [fillLoop_ok hb]
        exact ih (buf ++ c) (noFail_cons h).2
    · rw [fillLoop_stop hb]

theorem fillLoop_length_ge {M : Nat} (src : List ReadRes) (buf : List Nat)
    (hnf : noFail src) (h : M ≤ buf.length + srcAvail src) :
    M ≤ (fillLoop M buf src).2.1.length := by
  induction src generalizing buf with
  | nil =>
    simp only [srcAvail, Nat.add_zero] at h
    rw [fillLoop_stop (by omega)]
    exact h
  | cons r rest ih =>
    by_cases hb : buf.length < M
    · match r with
      | .fail e => exact absurd (noFail_cons hnf).1 (by simp [ReadRes.isFail])
      | .eof c =>
        rw [fillLoop_eof hb]
        simp only [srcAvail] at h
        simp only [List.length_append]
        exact h
      | .ok c =>
        rw [fillLoop_ok hb]
        refine ih (buf ++ c) (noFail_cons hnf).2 ?_
        simp only [srcAvail] at h
        simp only [List.length_append]
        omega
    · rw [fillLoop_stop hb]
      exact Nat.le_of_not_lt hb

theorem fillLoop_length_eq {M : Nat} (src : List ReadRes) (buf : List Nat)
    (hnf : noFail src) (h : buf.length + srcAvail src < M) :
    (fillLoop M buf src).2.1.length = buf.length + srcAvail src := by
  induction src generalizing buf with
  | nil =>
    rw [fillLoop_nil]
    simp [srcAvail]
  | cons r rest ih =>
    match r with
    | .fail e => exact absurd (noFail_cons hnf).1 (by simp [ReadRes.isFail])
    | .eof c =>
      simp only [srcAvail] at h ⊢
      rw [fillLoop_eof (by omega)]
      simp [List.length_append]
    | .ok c =>
      simp only [srcAvail] at h ⊢
      rw [fillLoop_ok (by omega)]
      rw [ih (buf ++ c) (noFail_cons hnf).2 (by simp [List.length_append]; omega)]
      simp [List.length_append]
      omega

/-! ### Behaviour of `playImpl` on an error-free source -/

theorem playImpl_no_fail (ctx : Context) (p : Player)
    (hnf : noFail p.src) (herr : p.err = none) (hst : p.state = .paused) :
    playImpl ctx p =
      { p with buf := (fillLoop ctx.maxBufferSize p.buf p.src).2.1,
               src := (fillLoop ctx.maxBufferSize p.buf p.src).2.2,
               state := .playing, hasLoop := true } := by
  have he : (fillLoop ctx.maxBufferSize p.buf p.src).1 = none :=
    fillLoop_err_none p.src p.buf hnf
  rcases hfl : fillLoop ctx.maxBufferSize p.buf p.src with ⟨o, b2, s2⟩
  rw [hfl] at he
  simp only at he
  subst he
  simp [playImpl, herr, hst, hfl]

/-! ### C1: the synchronous fill performed by `Play()` -/

/-- C1 (amended): after `Play()` returns on a fresh player over an
error-free source, if the source had at least `maxBufferSize` bytes
available then `UnplayedBufferSize()` is at least `maxBufferSize` (the code
appends whole read chunks while the buffer is still below `maxBufferSize`,
so partial reads can leave more than `maxBufferSize` bytes buffered); if
the source was shorter, `UnplayedBufferSize()` equals the source's total
length. -/
theorem play_fills_buffer (ctx : Context) (src : List ReadRes)
    (hnf : noFail src) :
    (ctx.maxBufferSize ≤ srcAvail src →
      ctx.maxBufferSize ≤ unplayedBufferSize (playImpl ctx (initPlayer src))) ∧
    (srcAvail src < ctx.maxBufferSize →
      unplayedBufferSize (playImpl ctx (initPlayer src)) = srcAvail src) := by
  have hpl := playImpl_no_fail ctx (initPlayer src) hnf rfl rfl
  constructor
  · intro hge
    simp only [unplayedBufferSize]
    rw [hpl]
    simpa [initPlayer] using fillLoop_length_ge src [] hnf (by simpa using hge)
  · intro hlt
    simp only [unplayedBufferSize]
    rw [hpl]
    simpa [initPlayer] using fillLoop_length_eq src [] hnf (by simpa using hlt)

/-- Witness for C1: a 3-byte source under `maxBufferSize = 4` leaves exactly
3 bytes buffered after `Play()`. -/
theorem play_fills_buffer_witness :
    unplayedBufferSize (playImpl ⟨8000, 1, 1, 4⟩
        (initPlayer [ReadRes.ok [0, 0], ReadRes.eof [0]])) =
      srcAvail [ReadRes.ok [0, 0], ReadRes.eof [0]] :=
  (play_fills_buffer ⟨8000, 1, 1, 4⟩ [ReadRes.ok [0, 0], ReadRes.eof [0]]
    (by decide)).2 (by decide)

/-- Counterexample to C1 as stated: with `maxBufferSize = 4` and a source
holding 6 bytes (so at least `maxBufferSize` bytes are available) delivered
in two 3-byte reads, `Play()` returns with `UnplayedBufferSize() = 6`, not
`maxBufferSize = 4`. -/
theorem play_fill_exact_counterexample :
    4 ≤ srcAvail [ReadRes.ok [0, 0, 0], ReadRes.ok [0, 0, 0]] ∧
    noFail [ReadRes.ok [0, 0, 0], ReadRes.ok [0, 0, 0]] ∧
    unplayedBufferSize (playImpl ⟨8000, 1, 1, 4⟩
      (initPlayer [ReadRes.ok [0, 0, 0], ReadRes.ok [0, 0, 0]])) ≠ 4 := by
  decide

/-! ### C2: bounds on the buffered byte count -/

theorem fillLoop_length_le {M k : Nat} (src : List ReadRes) (buf : List Nat)
    (hk : chunksLE k src) :
    (fillLoop M buf src).2.1.length ≤ max buf.length (M - 1 + k) := by
  induction src generalizing buf with
  | nil =>
    rw [fillLoop_nil]
    exact le_max_left _ _
  | cons r rest ih =>
    by_cases hb : buf.length < M
    · have hlen : buf.length ≤ M - 1 := Nat.le_pred_of_lt hb
      have hr : r.chunkLen ≤ k := hk r (by simp)
      match r with
      | .fail e =>
        rw [fillLoop_fail hb]
        exact le_max_left _ _
      | .eof c =>
        rw [fillLoop_eof hb]
        have hc : c.length ≤ k := by simpa [ReadRes.chunkLen] using hr
        simp only [List.length_append]
        exact le_max_of_le_right (by omega)
      | .ok c =>
        rw [fillLoop_ok hb]
        have hc : c.length ≤ k := by simpa [ReadRes.chunkLen] using hr
        have hrest : chunksLE k rest := fun x hx => hk x (by simp [hx])
        refine le_trans (ih (buf ++ c) hrest) (max_le ?_ (le_max_right _ _))
        simp only [List.length_append]
        exact le_max_of_le_right (by omega)
    · rw [fillLoop_stop hb]
      exact le_max_left _ _

theorem setErrorImpl_buf_le (e : Nat) (p : Player) :
    (setErrorImpl e p).buf.length ≤ p.buf.length := by
  unfold setErrorImpl closeImpl
  by_cases h : p.state = PlayerState.closed <;> simp [h]

theorem resetImpl_buf_le (p : Player) :
    (resetImpl p).buf.length ≤ p.buf.length := by
  unfold resetImpl
  by_cases h : p.state = PlayerState.closed <;> simp [h]

theorem closeImpl_buf_le (p : Player) :
    (closeImpl p).1.buf.length ≤ p.buf.length := by
  unfold closeImpl
  by_cases h : p.state = PlayerState.closed <;> simp [h]

theorem pauseImpl_buf (p : Player) : (pauseImpl p).buf = p.buf := by
  unfold pauseImpl
  by_cases h : p.state = PlayerState.playing <;> simp [h]

theorem addBuffer_buf_le (ctx : Context) (p : Player) (dst : List ℚ) :
    (addBuffer ctx p dst).1.buf.length ≤ p.buf.length := by
  unfold addBuffer
  by_cases h : p.state = PlayerState.playing
  · simp [h]
  · simp [h]

theorem playImpl_buf_le (ctx : Context) (p : Player)
    (h : chunksLE (max ctx.maxBufferSize 4096) p.src) :
    (playImpl ctx p).buf.length ≤
      max p.buf.length (ctx.maxBufferSize - 1 + max ctx.maxBufferSize 4096) := by
  have hfb := fillLoop_length_le (M := ctx.maxBufferSize) p.src p.buf h
  unfold playImpl
  rcases hfl : fillLoop ctx.maxBufferSize p.buf p.src with ⟨o, b2, s2⟩
  rw [hfl] at hfb
  simp only at hfb
  by_cases he : p.err = none
  · by_cases hs : p.state = PlayerState.paused
    · simp only [he, hs, ne_eq, not_true_eq_false, if_false, reduceCtorEq,
        ite_false, not_false_eq_true, ite_true]
      cases o with
      | none => simpa using hfb
      | some e =>
        have hse := setErrorImpl_buf_le e
          { src := s2, state := PlayerState.paused, buf := b2, volume := p.volume,
            err := none, hasLoop := p.hasLoop }
        simp only at hse
        exact le_trans hse hfb
    · simp [hs]
  · simp [he]

theorem loopIter_buf_le (ctx : Context) (p : Player)
    (hw : shouldWait ctx p = false)
    (h : chunksLE (max ctx.maxBufferSize 4096) p.src) :
    (loopIter p).buf.length ≤
      max p.buf.length (ctx.maxBufferSize - 1 + max ctx.maxBufferSize 4096) := by
  obtain ⟨s, st, b, v, er, hl⟩ := p
  by_cases hs : st = PlayerState.playing
  · subst hs
    have hlt : b.length < ctx.maxBufferSize := by
      simp only [shouldWait] at hw
      simpa using of_decide_eq_false hw
    have hlen : b.length ≤ ctx.maxBufferSize - 1 := Nat.le_pred_of_lt hlt
    cases s with
    | nil =>
      by_cases hz : b.length = 0
      · simp [loopIter, resetImpl, hz]
      · have hbuf : loopIter ⟨[], PlayerState.playing, b, v, er, hl⟩ =
            ⟨[], PlayerState.playing, b, v, er, hl⟩ := by
          simp [loopIter, hz]
        rw [hbuf]
        exact le_max_left _ _
    | cons r rest =>
      match r with
      | .fail e => simp [loopIter, setErrorImpl, closeImpl]
      | .ok c =>
        have hc : c.length ≤ max ctx.maxBufferSize 4096 := by
          have := h (ReadRes.ok c) (by simp)
          simpa [ReadRes.chunkLen] using this
        simp only [loopIter, ne_eq, not_true_eq_false, if_false, ite_false,
          not_false_eq_true, ite_true, List.length_append]
        refine le_max_of_le_right ?_
        omega
      | .eof c =>
        have hc : c.length ≤ max ctx.maxBufferSize 4096 := by
          have := h (ReadRes.eof c) (by simp)
          simpa [ReadRes.chunkLen] using this
        by_cases hz : (b ++ c).length = 0
        · simp [loopIter, resetImpl, hz]
        · have hz2 : ¬(b = [] ∧ c = []) := by
            intro hx
            exact hz (by simp [hx.1, hx.2])
          have hbuf : (loopIter ⟨ReadRes.eof c :: rest, PlayerState.playing, b, v,
              er, hl⟩).buf.length = b.length + c.length := by
            simp [loopIter, hz2]
          rw [hbuf]
          exact le_max_of_le_right (by omega)
  · simp [loopIter, hs]

/-- C2 (amended): in every reachable player state the buffered byte count is
bounded, but the bound is `maxBufferSize - 1 + max maxBufferSize 4096`, not
`maxBufferSize`: both the initial fill in `Play()` and the background fill
loop test `len(buffer) < maxBufferSize` *before* a read and then append the
whole chunk, so the buffer can legitimately exceed `maxBufferSize` by up to
one read chunk (`maxBufferSize` bytes for the initial fill, 4096 bytes for
the loop).  Mixing consumption and the other operations never grow the
buffer. -/
theorem buffer_length_bound (ctx : Context) (src : List ReadRes) (p : Player)
    (h : Reachable ctx src p) :
    p.buf.length ≤ ctx.maxBufferSize - 1 + max ctx.maxBufferSize 4096 := by
  induction h with
  | refl => simp [initPlayer]
  | tail hs hstep ih =>
    cases hstep with
    | playS hq => exact le_trans (playImpl_buf_le ctx _ hq) (max_le ih le_rfl)
    | pauseS => rw [pauseImpl_buf]; exact ih
    | resetS => exact le_trans (resetImpl_buf_le _) ih
    | closeS => exact le_trans (closeImpl_buf_le _) ih
    | volS v => exact ih
    | loopS hw hq =>
      exact le_trans (loopIter_buf_le ctx _ hw hq) (max_le ih le_rfl)
    | mixS dst => exact le_trans (addBuffer_buf_le ctx _ dst) ih

/-- Witness for C2 (amended): the freshly created player is reachable and
satisfies the bound. -/
theorem buffer_length_bound_witness :
    (initPlayer [ReadRes.eof [0]]).buf.length ≤ 4 - 1 + max 4 4096 :=
  buffer_length_bound ⟨8000, 1, 1, 4⟩ [ReadRes.eof [0]]
    (initPlayer [ReadRes.eof [0]]) Relation.ReflTransGen.refl

/-- Counterexample to C2 as stated: with `maxBufferSize = 4`, a player whose
source delivers two 3-byte chunks reaches — via the single `Play()` call —
a non-Closed state whose buffer holds 6 bytes, violating
`len(buffer) <= maxBufferSize`. -/
theorem buffer_exceeds_max_counterexample :
    Reachable ⟨8000, 1, 1, 4⟩ [ReadRes.ok [0, 0, 0], ReadRes.ok [0, 0, 0]]
      (playImpl ⟨8000, 1, 1, 4⟩
        (initPlayer [ReadRes.ok [0, 0, 0], ReadRes.ok [0, 0, 0]])) ∧
    (playImpl ⟨8000, 1, 1, 4⟩
        (initPlayer [ReadRes.ok [0, 0, 0], ReadRes.ok [0, 0, 0]])).state ≠
      PlayerState.closed ∧
    4 < (playImpl ⟨8000, 1, 1, 4⟩
        (initPlayer [ReadRes.ok [0, 0, 0], ReadRes.ok [0, 0, 0]])).buf.length := by
  refine ⟨Relation.ReflTransGen.single (Step.playS _ (by decide)), ?_, ?_⟩ <;> decide

/-! ### C7: a recorded error forces and freezes the Closed state -/

theorem setErrorImpl_err (e : Nat) (p : Player) :
    (setErrorImpl e p).err = some e := by
  unfold setErrorImpl closeImpl
  by_cases h : p.state = PlayerState.closed <;> simp [h]

theorem setErrorImpl_state (e : Nat) (p : Player) :
    (setErrorImpl e p).state = PlayerState.closed := by
  unfold setErrorImpl closeImpl
  by_cases h : p.state = PlayerState.closed <;> simp [h]

theorem closeImpl_state (p : Player) :
    (closeImpl p).1.state = PlayerState.closed := by
  unfold closeImpl
  by_cases h : p.state = PlayerState.closed <;> simp [h]

theorem closeImpl_err (p : Player) : (closeImpl p).1.err = p.err := by
  unfold closeImpl
  by_cases h : p.state = PlayerState.closed <;> simp [h]

theorem playImpl_err_ne_none (ctx : Context) (p : Player)
    (he : p.err ≠ none) : playImpl ctx p = p := by
  simp [playImpl, he]

theorem playImpl_not_paused (ctx : Context) (p : Player)
    (hs : p.state ≠ PlayerState.paused) : playImpl ctx p = p := by
  by_cases he : p.err = none <;> simp [playImpl, he, hs]

theorem pauseImpl_not_playing (p : Player)
    (hs : p.state ≠ PlayerState.playing) : pauseImpl p = p := by
  simp [pauseImpl, hs]

theorem resetImpl_closed (p : Player)
    (hs : p.state = PlayerState.closed) : resetImpl p = p := by
  simp [resetImpl, hs]

theorem closeImpl_closed (p : Player)
    (hs : p.state = PlayerState.closed) : closeImpl p = (p, none) := by
  simp [closeImpl, hs]

theorem loopIter_not_playing (p : Player)
    (hs : p.state ≠ PlayerState.playing) : loopIter p = p := by
  simp [loopIter, hs]

theorem addBuffer_not_playing (ctx : Context) (p : Player) (dst : List ℚ)
    (hs : p.state ≠ PlayerState.playing) : addBuffer ctx p dst = (p, dst, 0) := by
  simp [addBuffer, hs]

theorem pauseImpl_err (p : Player) : (pauseImpl p).err = p.err := by
  unfold pauseImpl
  by_cases h : p.state = PlayerState.playing <;> simp [h]

theorem resetImpl_err (p : Player) : (resetImpl p).err = p.err := by
  unfold resetImpl
  by_cases h : p.state = PlayerState.closed <;> simp [h]

theorem addBuffer_err_state (ctx : Context) (p : Player) (dst : List ℚ) :
    (addBuffer ctx p dst).1.err = p.err ∧ (addBuffer ctx p dst).1.state = p.state := by
  unfold addBuffer
  by_cases h : p.state = PlayerState.playing <;> simp [h]

theorem playImpl_err_or (ctx : Context) (p : Player) :
    (playImpl ctx p).err = p.err ∨ (playImpl ctx p).state = PlayerState.closed := by
  by_cases he : p.err = none
  · by_cases hs : p.state = PlayerState.paused
    · unfold playImpl
      rcases hfl : fillLoop ctx.maxBufferSize p.buf p.src with ⟨o, b2, s2⟩
      cases o with
      | some e =>
        right
        simp only [he, hs, ne_eq, reduceCtorEq, not_false_eq_true, if_false,
          ite_false, not_true_eq_false, ite_true]
        exact setErrorImpl_state e _
      | none =>
        left
        simp [he, hs]
    · rw [playImpl_not_paused ctx p hs]
      exact Or.inl rfl
  · rw [playImpl_err_ne_none ctx p he]
    exact Or.inl rfl

theorem loopIter_err_or (p : Player) :
    (loopIter p).err = p.err ∨ (loopIter p).state = PlayerState.closed := by
  by_cases hs : p.state = PlayerState.playing
  · obtain ⟨s, st, b, v, er, hl⟩ := p
    simp only at hs
    subst hs
    cases s with
    | nil =>
      by_cases hz : b.length = 0
      · left
        simp [loopIter, resetImpl, hz]
      · left
        simp [loopIter, hz]
    | cons r rest =>
      match r with
      | .fail e =>
        right
        simp only [loopIter, ne_eq, not_true_eq_false, if_false, ite_false,
          not_false_eq_true, ite_true]
        exact setErrorImpl_state e _
      | .ok c =>
        left
        simp [loopIter]
      | .eof c =>
        by_cases hz : b = [] ∧ c = []
        · left
          simp [loopIter, resetImpl, hz.1, hz.2]
        · left
          simp [loopIter, hz]
  · rw [loopIter_not_playing p hs]
    exact Or.inl rfl

theorem step_err_closed {ctx : Context} {p q : Player} (hstep : Step ctx p q)
    (hp : p.err ≠ none → p.state = PlayerState.closed) :
    q.err ≠ none → q.state = PlayerState.closed := by
  intro hq
  cases hstep with
  | playS h =>
    rcases playImpl_err_or ctx p with hcase | hcase
    · rw [hcase] at hq
      have hc := hp hq
      rw [playImpl_not_paused ctx p (by simp [hc])]
      exact hc
    · exact hcase
  | pauseS =>
    rw [pauseImpl_err] at hq
    have hc := hp hq
    rw [pauseImpl_not_playing p (by simp [hc])]
    exact hc
  | resetS =>
    rw [resetImpl_err] at hq
    have hc := hp hq
    rw [resetImpl_closed p hc]
    exact hc
  | closeS => exact closeImpl_state p
  | volS v =>
    have hc := hp hq
    exact hc
  | loopS hw h =>
    rcases loopIter_err_or p with hcase | hcase
    · rw [hcase] at hq
      have hc := hp hq
      rw [loopIter_not_playing p (by simp [hc])]
      exact hc
    · exact hcase
  | mixS dst =>
    obtain ⟨he, hs⟩ := addBuffer_err_state ctx p dst
    rw [he] at hq
    rw [hs]
    exact hp hq

theorem reachable_err_closed (ctx : Context) (src : List ReadRes) (p : Player)
    (h : Reachable ctx src p) : p.err ≠ none → p.state = PlayerState.closed := by
  induction h with
  | refl => intro hx; simp [initPlayer] at hx
  | tail hs hstep ih => exact step_err_closed hstep ih

theorem step_closed_frozen {ctx : Context} {p q : Player} (hstep : Step ctx p q)
    (hc : p.state = PlayerState.closed) :
    q.state = PlayerState.closed ∧ q.err = p.err := by
  cases hstep with
  | playS h =>
    rw [playImpl_not_paused ctx p (by simp [hc])]
    exact ⟨hc, rfl⟩
  | pauseS =>
    rw [pauseImpl_not_playing p (by simp [hc])]
    exact ⟨hc, rfl⟩
  | resetS =>
    rw [resetImpl_closed p hc]
    exact ⟨hc, rfl⟩
  | closeS =>
    rw [closeImpl_closed p hc]
    exact ⟨hc, rfl⟩
  | volS v => exact ⟨hc, rfl⟩
  | loopS hw h =>
    rw [loopIter_not_playing p (by simp [hc])]
    exact ⟨hc, rfl⟩
  | mixS dst =>
    obtain ⟨he, hs⟩ := addBuffer_err_state ctx p dst
    rw [he, hs]
    exact ⟨hc, rfl⟩

/-- C7: once the recorded error is non-nil the player is Closed, and under
every subsequent operation (Play, Pause, Reset, Close, SetVolume, loop
iteration, mixing) it stays Closed with the same recorded error; `Err()`
never reverts to nil.  The only assignments of the error field in the code
are in `setErrorImpl`, which immediately invokes `closeImpl`, so an error
can only be carried by a Closed player. -/
theorem error_closes_and_sticks (ctx : Context) (src : List ReadRes)
    (p q : Player) (e : Nat) (hreach : Reachable ctx src p)
    (he : p.err = some e)
    (hsteps : Relation.ReflTransGen (Step ctx) p q) :
    p.state = PlayerState.closed ∧ q.err = some e ∧
      q.state = PlayerState.closed := by
  have hc : p.state = PlayerState.closed :=
    reachable_err_closed ctx src p hreach (by simp [he])
  refine ⟨hc, ?_⟩
  induction hsteps with
  | refl => exact ⟨he, hc⟩
  | tail hs hstep ih =>
    obtain ⟨iherr, ihclosed⟩ := ih
    obtain ⟨hq1, hq2⟩ := step_closed_frozen hstep ihclosed
    exact ⟨hq2.trans iherr, hq1⟩

/-- Witness for C7: a player whose first read fails with error 7 is Closed
right after `Play()`, keeps error 7, and stays Closed. -/
theorem error_closes_and_sticks_witness :
    (playImpl ⟨8000, 1, 1, 4⟩ (initPlayer [ReadRes.fail 7])).state =
        PlayerState.closed ∧
    (playImpl ⟨8000, 1, 1, 4⟩ (initPlayer [ReadRes.fail 7])).err = some 7 ∧
    (playImpl ⟨8000, 1, 1, 4⟩ (initPlayer [ReadRes.fail 7])).state =
        PlayerState.closed :=
  error_closes_and_sticks ⟨8000, 1, 1, 4⟩ [ReadRes.fail 7] _ _ 7
    (Relation.ReflTransGen.single (Step.playS _ (by decide)))
    (by decide) Relation.ReflTransGen.refl

/-! ### C4: idempotence of Close and its returned error -/

/-- C4 (amended): `Close()` is idempotent in state — after the first call the
player is Closed and every further `Close()` leaves it unchanged and returns
nil.  However, only a `Close()` that actually performs the Paused/Playing →
Closed transition returns the recorded error: `closeImpl` returns nil
whenever the player is already Closed, and since the internal error path
closes the player at the moment the error is recorded, every explicit
`Close()` on a player carrying an error returns nil (the error remains
observable only via `Err()`). -/
theorem close_idempotent_amended (ctx : Context) (src : List ReadRes)
    (p : Player) (h : Reachable ctx src p) :
    (closeImpl p).1.state = PlayerState.closed ∧
    closeImpl (closeImpl p).1 = ((closeImpl p).1, none) ∧
    (∀ e, p.err = some e →
      p.state = PlayerState.closed ∧ (closeImpl p).2 = none) := by
  refine ⟨closeImpl_state p, closeImpl_closed _ (closeImpl_state p), ?_⟩
  intro e he
  have hc := reachable_err_closed ctx src p h (by simp [he])
  exact ⟨hc, by simp [closeImpl, hc]⟩

/-- Witness for C4 (amended): on the errored player, `Close()` leaves a
Closed player and returns nil. -/
theorem close_idempotent_amended_witness :
    (closeImpl (playImpl ⟨8000, 1, 1, 4⟩
        (initPlayer [ReadRes.fail 7]))).1.state = PlayerState.closed ∧
    (closeImpl (playImpl ⟨8000, 1, 1, 4⟩
        (initPlayer [ReadRes.fail 7]))).2 = none := by
  have h := close_idempotent_amended ⟨8000, 1, 1, 4⟩ [ReadRes.fail 7]
    (playImpl ⟨8000, 1, 1, 4⟩ (initPlayer [ReadRes.fail 7]))
    (Relation.ReflTransGen.single (Step.playS _ (by decide)))
  exact ⟨h.1, (h.2.2 7 (by decide)).2⟩

/-- Counterexample to C4 as stated: a player whose source read failed with
error 7 reaches — through `Play()` alone — a state with recorded error 7,
yet the first and every subsequent `Close()` return nil, not the recorded
error. -/
theorem close_error_counterexample :
    Reachable ⟨8000, 1, 1, 4⟩ [ReadRes.fail 7]
      (playImpl ⟨8000, 1, 1, 4⟩ (initPlayer [ReadRes.fail 7])) ∧
    (playImpl ⟨8000, 1, 1, 4⟩ (initPlayer [ReadRes.fail 7])).err = some 7 ∧
    (closeImpl (playImpl ⟨8000, 1, 1, 4⟩
        (initPlayer [ReadRes.fail 7]))).2 ≠ some 7 ∧
    (closeImpl (closeImpl (playImpl ⟨8000, 1, 1, 4⟩
        (initPlayer [ReadRes.fail 7]))).1).2 ≠ some 7 := by
  refine ⟨Relation.ReflTransGen.single (Step.playS _ (by decide)), ?_, ?_, ?_⟩ <;>
    decide

/-! ### C8, C9, C10: mixing frame conditions and Pause -/

theorem addBuffer_playing (ctx : Context) (p : Player) (dst : List ℚ)
    (h : p.state = PlayerState.playing) :
    addBuffer ctx p dst =
      ({ p with buf := p.buf.drop (min (p.buf.length / ctx.bitDepthInBytes) dst.length * ctx.bitDepthInBytes) },
       mixAdd p.volume (sampleAt ctx.bitDepthInBytes p.buf) 0 (min (p.buf.length / ctx.bitDepthInBytes) dst.length) dst,
       min (p.buf.length / ctx.bitDepthInBytes) dst.length) := by
  simp [addBuffer, h]

/-- C8: a player that is `Paused` or `Closed` at mixing time contributes
silence: zero samples consumed, the destination buffer is returned exactly
as passed, and the player itself (buffer, state, volume, error) is
unchanged. -/
theorem mix_paused_or_closed_silent (ctx : Context) (p : Player) (dst : List ℚ)
    (h : p.state = PlayerState.paused ∨ p.state = PlayerState.closed) :
    addBuffer ctx p dst = (p, dst, 0) := by
  apply addBuffer_not_playing
  rcases h with h | h <;> simp [h]

/-- Witness for C8: a freshly created (hence Paused) player contributes
silence to a one-sample destination. -/
theorem mix_paused_or_closed_silent_witness :
    addBuffer ⟨8000, 1, 1, 4⟩ (initPlayer [ReadRes.eof []]) [0] =
      (initPlayer [ReadRes.eof []], [0], 0) :=
  mix_paused_or_closed_silent ⟨8000, 1, 1, 4⟩ (initPlayer [ReadRes.eof []]) [0]
    (Or.inl rfl)

/-- C9: `Pause()` is effective only from Playing: from Playing it moves the
player to Paused and changes nothing else (source, buffer, volume, error,
loop flag are all retained); from Paused or Closed it changes nothing at
all. -/
theorem pause_only_from_playing (p : Player) :
    (p.state = PlayerState.playing →
      pauseImpl p = { p with state := PlayerState.paused }) ∧
    (p.state ≠ PlayerState.playing → pauseImpl p = p) := by
  constructor
  · intro h
    simp [pauseImpl, h]
  · intro h
    simp [pauseImpl, h]

/-- Witness for C9: pausing a concrete Playing player only flips its state
to Paused. -/
theorem pause_only_from_playing_witness :
    pauseImpl ⟨[], PlayerState.playing, [3], 1, none, true⟩ =
      ⟨[], PlayerState.paused, [3], 1, none, true⟩ :=
  (pause_only_from_playing ⟨[], PlayerState.playing, [3], 1, none, true⟩).1 rfl

/-- C10: mixing consumes only whole samples from the front of the buffer:
the bytes removed are exactly `n * bitDepthInBytes` for the returned count
`n`, the remaining bytes are the original tail kept in order, trailing
partial-sample bytes (`len(buffer) mod bitDepthInBytes`) stay buffered, and
the buffer never grows during mixing. -/
theorem mix_consumes_whole_samples (ctx : Context) (p : Player)
    (dst : List ℚ) :
    (addBuffer ctx p dst).1.buf =
      p.buf.drop ((addBuffer ctx p dst).2.2 * ctx.bitDepthInBytes) ∧
    (addBuffer ctx p dst).2.2 * ctx.bitDepthInBytes ≤ p.buf.length ∧
    p.buf = p.buf.take ((addBuffer ctx p dst).2.2 * ctx.bitDepthInBytes) ++
      (addBuffer ctx p dst).1.buf ∧
    (addBuffer ctx p dst).1.buf.length ≤ p.buf.length ∧
    p.buf.length % ctx.bitDepthInBytes ≤ (addBuffer ctx p dst).1.buf.length := by
  by_cases h : p.state = PlayerState.playing
  · rw [addBuffer_playing ctx p dst h]
    set bd := ctx.bitDepthInBytes with hbd
    set n := min (p.buf.length / bd) dst.length with hn
    have h2 : n ≤ p.buf.length / bd := min_le_left _ _
    have h3 : n * bd ≤ p.buf.length / bd * bd := Nat.mul_le_mul_right bd h2
    have h4 : p.buf.length / bd * bd ≤ p.buf.length := Nat.div_mul_le_self _ _
    have h5 : bd * (p.buf.length / bd) + p.buf.length % bd = p.buf.length :=
      Nat.div_add_mod _ _
    have h6 : p.buf.length / bd * bd = bd * (p.buf.length / bd) :=
      Nat.mul_comm _ _
    refine ⟨rfl, ?_, ?_, ?_, ?_⟩
    · show n * bd ≤ p.buf.length
      omega
    · show p.buf = p.buf.take (n * bd) ++ p.buf.drop (n * bd)
      exact (List.take_append_drop _ _).symm
    · show (p.buf.drop (n * bd)).length ≤ p.buf.length
      simp only [List.length_drop]
      omega
    · show p.buf.length % bd ≤ (p.buf.drop (n * bd)).length
      simp only [List.length_drop]
      omega
  · rw [addBuffer_not_playing ctx p dst h]
    exact ⟨by simp, by simp, by simp, le_rfl, Nat.mod_le _ _⟩

/-! ### C5: the mixing contribution and additivity -/

theorem mixAdd_length (vol : ℚ) (sample : Nat → ℚ) (i n : Nat)
    (dst : List ℚ) : (mixAdd vol sample i n dst).length = dst.length := by
  induction dst generalizing i with
  | nil => rfl
  | cons x xs ih => simp [mixAdd, ih]

theorem mixAdd_getD (vol : ℚ) (sample : Nat → ℚ) (n : Nat) (dst : List ℚ)
    (i j : Nat) :
    (mixAdd vol sample i n dst).getD j 0 =
      if i + j < n ∧ j < dst.length then dst.getD j 0 + sample (i + j) * vol
      else dst.getD j 0 := by
  induction dst generalizing i j with
  | nil => simp [mixAdd]
  | cons x xs ih =>
    cases j with
    | zero =>
      by_cases hc : i < n <;> simp [mixAdd, hc]
    | succ j =>
      simp only [mixAdd, List.getD_cons_succ]
      rw [ih (i + 1) j]
      have hij : i + 1 + j = i + (j + 1) := by omega
      rw [hij]
      by_cases h2 : j < xs.length <;>
        simp [h2, List.length_cons, Nat.succ_lt_succ_iff]

theorem addBuffer_getD (ctx : Context) (q : Player) (d : List ℚ)
    (hq : q.state = PlayerState.playing) (j : Nat) :
    (addBuffer ctx q d).2.1.getD j 0 =
      if j < (addBuffer ctx q d).2.2
      then d.getD j 0 + sampleAt ctx.bitDepthInBytes q.buf j * q.volume
      else d.getD j 0 := by
  rw [addBuffer_playing ctx q d hq]
  simp only
  rw [mixAdd_getD]
  have hn : min (q.buf.length / ctx.bitDepthInBytes) d.length ≤ d.length :=
    min_le_right _ _
  by_cases hj : j < min (q.buf.length / ctx.bitDepthInBytes) d.length
  · rw [if_pos ⟨by omega, by omega⟩, if_pos hj]
    simp
  · rw [if_neg (by omega), if_neg hj]

/-- C5: for a Playing player the mixing contribution consumes exactly
`n = min(len(buffer) / bitDepthInBytes, len(dst))` samples, adds (does not
overwrite) `convert(sample) * volume` into each of the first `n` destination
slots while leaving the rest untouched, and returns `n`; applying a second
Playing player's contribution to the resulting destination yields the sum of
both players' scaled samples on the slots both contribute to. -/
theorem mix_additive (ctx : Context) (p : Player) (dst : List ℚ)
    (h : p.state = PlayerState.playing) :
    (addBuffer ctx p dst).2.2 =
      min (p.buf.length / ctx.bitDepthInBytes) dst.length ∧
    (addBuffer ctx p dst).2.1.length = dst.length ∧
    (∀ j, (addBuffer ctx p dst).2.1.getD j 0 =
      if j < (addBuffer ctx p dst).2.2
      then dst.getD j 0 + sampleAt ctx.bitDepthInBytes p.buf j * p.volume
      else dst.getD j 0) ∧
    (∀ p2, p2.state = PlayerState.playing → ∀ j,
      j < (addBuffer ctx p dst).2.2 →
      j < (addBuffer ctx p2 (addBuffer ctx p dst).2.1).2.2 →
      (addBuffer ctx p2 (addBuffer ctx p dst).2.1).2.1.getD j 0 =
        dst.getD j 0 + sampleAt ctx.bitDepthInBytes p.buf j * p.volume +
          sampleAt ctx.bitDepthInBytes p2.buf j * p2.volume) := by
  refine ⟨?_, ?_, addBuffer_getD ctx p dst h, ?_⟩
  · rw [addBuffer_playing ctx p dst h]
  · rw [addBuffer_playing ctx p dst h]
    simp only
    exact mixAdd_length _ _ _ _ _
  · intro p2 h2 j hj1 hj2
    rw [addBuffer_getD ctx p2 _ h2 j, if_pos hj2,
      addBuffer_getD ctx p dst h j, if_pos hj1]

/-- Witness for C5: a Playing 1-byte-depth player with a single buffered
byte consumes exactly one sample when mixed into a one-slot destination. -/
theorem mix_additive_witness :
    (addBuffer ⟨8000, 1, 1, 4⟩
        ⟨[], PlayerState.playing, [64], 1, none, true⟩ [0]).2.2 = 1 :=
  (mix_additive ⟨8000, 1, 1, 4⟩
    ⟨[], PlayerState.playing, [64], 1, none, true⟩ [0] rfl).1

/-! ### C6: end-of-stream with a drained buffer auto-pauses -/

/-- C6: when the fill loop of a Playing, error-free player reads
end-of-stream and the buffer is (and stays) empty, the player transitions
to Paused automatically and no error is recorded — `Err()` stays nil. -/
theorem eof_empty_buffer_pauses (p : Player) (c : List Nat)
    (rest : List ReadRes) (hst : p.state = PlayerState.playing)
    (herr : p.err = none) (hsrc : p.src = ReadRes.eof c :: rest)
    (hbuf : p.buf ++ c = []) :
    (loopIter p).state = PlayerState.paused ∧ (loopIter p).err = none := by
  obtain ⟨s, st, b, v, er, hl⟩ := p
  simp only at hst herr hsrc hbuf
  subst hst herr hsrc
  obtain ⟨hb, hc⟩ := List.append_eq_nil.mp hbuf
  subst hb hc
  simp [loopIter, resetImpl]

/-- Witness for C6: a Playing player with empty buffer whose next read is a
bare EOF ends up Paused with no error. -/
theorem eof_empty_buffer_pauses_witness :
    (loopIter ⟨[ReadRes.eof []], PlayerState.playing, [], 1, none,
        true⟩).state = PlayerState.paused ∧
    (loopIter ⟨[ReadRes.eof []], PlayerState.playing, [], 1, none,
        true⟩).err = none :=
  eof_empty_buffer_pauses ⟨[ReadRes.eof []], PlayerState.playing, [], 1, none,
    true⟩ [] [] rfl rfl rfl rfl

/-! ### C3: range of the converted samples -/

/-- C3 (code evaluation): the 1-byte branch of the converter in `addBuffer`
subtracts `1 << 7` from the sample byte in Go `byte` (unsigned, wrap-around)
arithmetic, so instead of the intended signed value `(b - 128) / 128` in
`[-1, 1)` it computes `((b + 128) mod 256) / 128` in `[0, 2)`: byte 0 maps
to `+1` (claim/spec: `-1`) and byte 127 maps to `255/128 > 1`, outside the
claimed range; mixing a buffered byte 0 at volume 1 therefore adds `+1` to
the destination. -/
theorem convert1_out_of_range :
    convert1 0 = 1 ∧ ¬ convert1 0 < 1 ∧
    convert1 127 = 255 / 128 ∧ 1 < convert1 127 ∧
    (addBuffer ⟨8000, 1, 1, 4⟩
      ⟨[], PlayerState.playing, [0], 1, none, true⟩ [0]).2.1 = [1] := by
  refine ⟨by norm_num [convert1], by norm_num [convert1],
    by norm_num [convert1], by norm_num [convert1], ?_⟩
  norm_num [addBuffer, mixAdd, sampleAt, convert1]
